import Mathlib

set_option maxHeartbeats 1000000

/-
Verification of the scrape-and-normalize pipeline of
stock-screener-backend/app.py: the percentage-change calculator, the
QoQ/YoY series construction, the quarter-window selector, the table-row
parser, the metric extractor, the NSE symbol resolver and the upcoming
results calendar-line parser, all translated from the Python source into
executable Lean definitions.
-/

/-- Result of the percentage-change computation: either the sentinel string
"N/A" returned by the Python code, or an integer percentage. -/
inductive PctResult where
  | NA : PctResult
  | val : ℤ → PctResult
  deriving DecidableEq, Repr

/-- Python round(x, 0): round to the nearest integer with ties going to the
even integer (banker's rounding), modelled on exact rational arithmetic. -/
def pyRound (q : ℚ) : ℤ :=
  if q - ⌊q⌋ < 1/2 then ⌊q⌋
  else if 1/2 < q - ⌊q⌋ then ⌊q⌋ + 1
  else if ⌊q⌋ % 2 = 0 then ⌊q⌋ else ⌊q⌋ + 1

/-- Lines 209-212 of app.py:
if prev == 0 or prev is None or current is None: return 'N/A'
return int(round((current - prev) / abs(prev) * 100, 0)).
Sales values are integers by this point (line 205). -/
def calc_pct (current prev : Option ℤ) : PctResult :=
  match prev, current with
  | some p, some c =>
      if p = 0 then PctResult.NA
      else PctResult.val (pyRound (((c : ℚ) - (p : ℚ)) / |(p : ℚ)| * 100))
  | _, _ => PctResult.NA

theorem pyRound_ofInt (n : ℤ) : pyRound (n : ℚ) = n := by
  unfold pyRound
  rw [Int.floor_intCast]
  simp

theorem pyRound_near (q : ℚ) : |q - (pyRound q : ℚ)| ≤ 1/2 := by
  have h1 : (⌊q⌋ : ℚ) ≤ q := Int.floor_le q
  have h2 : q < ⌊q⌋ + 1 := Int.lt_floor_add_one q
  unfold pyRound
  split_ifs with ha hb hc
  · rw [abs_of_nonneg (by linarith)]
    linarith
  · push_cast
    rw [abs_of_nonpos (by linarith)]
    linarith
  · rw [abs_of_nonneg (by linarith)]
    linarith
  · push_cast
    rw [abs_of_nonpos (by linarith)]
    linarith

/-- C1: calc_pct returns the sentinel exactly when prev is absent, current
is absent, or prev is zero; otherwise it returns the signed percentage
change (current - prev) / |prev| * 100 rounded to the nearest integer (the
rounded value is within 1/2 of the exact rational), and in particular
calc_pct(110, 100) = 10 and calc_pct(90, 100) = -10. -/
theorem calc_pct_correct (current prev : Option ℤ) :
    (calc_pct current prev = PctResult.NA ↔
      prev = none ∨ current = none ∨ prev = some 0)
    ∧ (∀ c p : ℤ, current = some c → prev = some p → p ≠ 0 →
        calc_pct current prev =
          PctResult.val (pyRound (((c : ℚ) - (p : ℚ)) / |(p : ℚ)| * 100))
        ∧ |(((c : ℚ) - (p : ℚ)) / |(p : ℚ)| * 100) -
            (pyRound (((c : ℚ) - (p : ℚ)) / |(p : ℚ)| * 100) : ℚ)| ≤ 1/2)
    ∧ calc_pct (some 110) (some 100) = PctResult.val 10
    ∧ calc_pct (some 90) (some 100) = PctResult.val (-10) := by
  refine ⟨?_, ?_, ?_, ?_⟩
  · cases prev with
    | none => simp [calc_pct]
    | some p =>
      cases current with
      | none => simp [calc_pct]
      | some c =>
        by_cases hp : p = 0 <;> simp [calc_pct, hp]
  · intro c p hc hp hpz
    subst hc; subst hp
    refine ⟨by simp [calc_pct, hpz], pyRound_near _⟩
  · show calc_pct (some 110) (some 100) = PctResult.val 10
    have e1 : (((110:ℤ):ℚ) - ((100:ℤ):ℚ)) / |((100:ℤ):ℚ)| * 100 = ((10:ℤ):ℚ) := by
      norm_num
    simp only [calc_pct]
    rw [if_neg (by decide), e1, pyRound_ofInt]
  · show calc_pct (some 90) (some 100) = PctResult.val (-10)
    have e2 : (((90:ℤ):ℚ) - ((100:ℤ):ℚ)) / |((100:ℤ):ℚ)| * 100 = ((-10:ℤ):ℚ) := by
      norm_num
    simp only [calc_pct]
    rw [if_neg (by decide), e2, pyRound_ofInt]

theorem calc_pct_correct_witness :
    calc_pct (some 110) (some 100) =
      PctResult.val
        (pyRound ((((110 : ℤ) : ℚ) - ((100 : ℤ) : ℚ)) / |((100 : ℤ) : ℚ)| * 100))
    ∧ |((((110 : ℤ) : ℚ) - ((100 : ℤ) : ℚ)) / |((100 : ℤ) : ℚ)| * 100) -
        (pyRound ((((110 : ℤ) : ℚ) - ((100 : ℤ) : ℚ)) / |((100 : ℤ) : ℚ)| * 100) : ℚ)| ≤ 1/2 :=
  (calc_pct_correct (some 110) (some 100)).2.1 110 100 rfl rfl (by decide)

/-- Line 214 of app.py:
sales_qoq = ['N/A'] + [calc_pct(sales[i], sales[i-1]) for i in range(1, len(sales))]
            if sales and any(x is not None for x in sales)
            else ['N/A'] * len(quarters).
The second argument nq is len(quarters), the quarter-label count. -/
def computeQoQ (sales : List (Option ℤ)) (nq : Nat) : List PctResult :=
  if sales ≠ [] ∧ sales.any Option.isSome then
    PctResult.NA ::
      (List.range (sales.length - 1)).map
        (fun i => calc_pct (sales.getD (i + 1) none) (sales.getD i none))
  else List.replicate nq PctResult.NA

/-- Line 215 of app.py:
sales_yoy = ['N/A'] * min(4, len(sales)) + [calc_pct(sales[i], sales[i-4]) for i in range(4, len(sales))]
            if sales and any(x is not None for x in sales)
            else ['N/A'] * len(quarters). -/
def computeYoY (sales : List (Option ℤ)) (nq : Nat) : List PctResult :=
  if sales ≠ [] ∧ sales.any Option.isSome then
    List.replicate (min 4 sales.length) PctResult.NA ++
      (List.range (sales.length - 4)).map
        (fun i => calc_pct (sales.getD (i + 4) none) (sales.getD i none))
  else List.replicate nq PctResult.NA

/-- C2 counterexample: the claim says the QoQ output always has the same
length as the sales series, but when every sales value is absent the code
falls back to a sentinel list of length len(quarters), which differs from
len(sales) whenever the Sales row is ragged with respect to the header row
(here: a one-cell Sales row under a two-label header). -/
theorem computeQoQ_length_counterexample :
    ¬ ((computeQoQ [(none : Option ℤ)] 2).length = ([(none : Option ℤ)]).length) := by
  decide

/-- C2 amended: when the sales series is nonempty and contains at least one
present value, QoQ and YoY each have the same length as the sales series,
QoQ index 0 is the sentinel, and YoY indices below min(4, len(sales)) are
the sentinel; when the sales series is empty or every value is absent, both
outputs are the sentinel repeated len(quarters) times, which equals the
sales length exactly when the sales series is aligned with the quarter
labels. -/
theorem computeQoQ_computeYoY_amended (sales : List (Option ℤ)) (nq : Nat) :
    (sales ≠ [] → sales.any Option.isSome →
      (computeQoQ sales nq).length = sales.length
      ∧ (computeYoY sales nq).length = sales.length
      ∧ (computeQoQ sales nq).head? = some PctResult.NA
      ∧ (∀ i, i < min 4 sales.length →
          (computeYoY sales nq).get? i = some PctResult.NA))
    ∧ (sales = [] ∨ sales.all Option.isNone →
        computeQoQ sales nq = List.replicate nq PctResult.NA
        ∧ computeYoY sales nq = List.replicate nq PctResult.NA)
    ∧ (nq = sales.length →
        (computeQoQ sales nq).length = sales.length
        ∧ (computeYoY sales nq).length = sales.length) := by
  have hcond : (sales = [] ∨ sales.all Option.isNone) →
      ¬ (sales ≠ [] ∧ sales.any Option.isSome) := by
    intro h hc
    rcases h with h | h
    · exact hc.1 h
    · rw [List.any_eq_true] at hc
      obtain ⟨x, hx, hs⟩ := hc.2
      rw [List.all_eq_true] at h
      have hn := h x hx
      rw [Option.isNone_iff_eq_none] at hn
      rw [hn] at hs
      simp at hs
  have hlen : ∀ (h1 : sales ≠ []) (h2 : sales.any Option.isSome),
      (computeQoQ sales nq).length = sales.length
      ∧ (computeYoY sales nq).length = sales.length := by
    intro h1 h2
    have hpos : 0 < sales.length := List.length_pos.mpr h1
    constructor
    · rw [computeQoQ, if_pos ⟨h1, h2⟩]
      simp only [List.length_cons, List.length_map, List.length_range]
      omega
    · rw [computeYoY, if_pos ⟨h1, h2⟩]
      simp only [List.length_append, List.length_replicate, List.length_map,
        List.length_range]
      omega
  refine ⟨?_, ?_, ?_⟩
  · intro h1 h2
    refine ⟨(hlen h1 h2).1, (hlen h1 h2).2, ?_, ?_⟩
    · rw [computeQoQ, if_pos ⟨h1, h2⟩]
      rfl
    · intro i hi
      rw [computeYoY, if_pos ⟨h1, h2⟩]
      rw [List.get?_eq_getElem?,
        List.getElem?_append_left (by simpa using hi),
        List.getElem?_replicate]
      simp [hi]
  · intro h
    exact ⟨by rw [computeQoQ, if_neg (hcond h)],
           by rw [computeYoY, if_neg (hcond h)]⟩
  · intro hnq
    by_cases hc : sales ≠ [] ∧ sales.any Option.isSome
    · exact hlen hc.1 hc.2
    · have hq : computeQoQ sales nq = List.replicate nq PctResult.NA := by
        rw [computeQoQ, if_neg hc]
      have hy : computeYoY sales nq = List.replicate nq PctResult.NA := by
        rw [computeYoY, if_neg hc]
      rw [hq, hy, List.length_replicate, hnq]
      exact ⟨rfl, rfl⟩

theorem computeQoQ_computeYoY_amended_witness :
    (computeQoQ [some 100, some 110, none, some 50, some 55] 5).length = 5
    ∧ (computeYoY [some 100, some 110, none, some 50, some 55] 5).length = 5
    ∧ (computeQoQ [some 100, some 110, none, some 50, some 55] 5).head? =
        some PctResult.NA
    ∧ (computeYoY [some 100, some 110, none, some 50, some 55] 5).get? 2 =
        some PctResult.NA :=
  have h := (computeQoQ_computeYoY_amended
    [some 100, some 110, none, some 50, some 55] 5).1 (by decide) (by decide)
  ⟨h.1, h.2.1, h.2.2.1, h.2.2.2 2 (by decide)⟩

/-- Python list slice xs[-k:]: the whole list when k = 0 (xs[-0:] is xs[0:])
or when k exceeds the length, otherwise the last k elements. -/
def pyTailSlice {α : Type} (xs : List α) (k : Nat) : List α :=
  if k = 0 then xs else xs.drop (xs.length - k)

/-- Lines 220-226 of app.py, the per-series window step:
series[-num_qtrs:][::-1] if quarters else []. -/
def latestFirst {α : Type} (quarters : List String) (numQtrs : Nat)
    (series : List α) : List α :=
  if quarters.isEmpty then [] else (pyTailSlice series numQtrs).reverse

/-- Lines 217-226 of app.py: num_qtrs = min(len(quarters), maxQuarters) and
the window step applied with that count. -/
def selectWindow {α : Type} (quarters : List String) (series : List α)
    (maxQuarters : Nat) : List α :=
  latestFirst quarters (min quarters.length maxQuarters) series

/-- C3: for every aligned series (same length as the quarter labels) with
maxQuarters = 8, the window selector returns the last n = min(len(quarters), 8)
elements in reversed order, so its length is n, index i holds the element at
original index len - 1 - i (index 0 is the most recent quarter), and an empty
quarter-label list gives an empty output. -/
theorem selectWindow_correct {α : Type} (d : α) (quarters : List String)
    (series : List α) (h : series.length = quarters.length) :
    (selectWindow quarters series 8).length = min quarters.length 8
    ∧ (∀ i, i < min quarters.length 8 →
        (selectWindow quarters series 8).getD i d =
          series.getD (series.length - 1 - i) d)
    ∧ (quarters = [] → selectWindow quarters series 8 = []) := by
  by_cases hq : quarters = []
  · subst hq
    refine ⟨?_, ?_, fun _ => rfl⟩
    · simp [selectWindow, latestFirst]
    · intro i hi
      simp at hi
  · have hne : quarters.isEmpty = false := by
      simpa [List.isEmpty_iff] using hq
    have hqpos : 0 < quarters.length := List.length_pos.mpr hq
    have hn0 : min quarters.length 8 ≠ 0 := by omega
    have hnle : min quarters.length 8 ≤ series.length := by omega
    have hsel : selectWindow quarters series 8 =
        (series.drop (series.length - min quarters.length 8)).reverse := by
      rw [selectWindow, latestFirst, hne, pyTailSlice, if_neg hn0]
      simp
    have hdroplen : (series.drop (series.length - min quarters.length 8)).length =
        min quarters.length 8 := by
      rw [List.length_drop]
      omega
    refine ⟨?_, ?_, fun hq2 => absurd hq2 hq⟩
    · rw [hsel, List.length_reverse, hdroplen]
    · intro i hi
      rw [hsel, List.getD_eq_getElem?_getD, List.getD_eq_getElem?_getD,
        List.getElem?_reverse (by rw [hdroplen]; exact hi),
        List.getElem?_drop, hdroplen]
      congr 2
      omega

theorem selectWindow_correct_witness :
    (selectWindow ["Q1", "Q2", "Q3"] ([10, 20, 30] : List Nat) 8).length = min 3 8
    ∧ (selectWindow ["Q1", "Q2", "Q3"] ([10, 20, 30] : List Nat) 8).getD 0 0 =
        ([10, 20, 30] : List Nat).getD (3 - 1 - 0) 0 :=
  have h := selectWindow_correct 0 ["Q1", "Q2", "Q3"] ([10, 20, 30] : List Nat) rfl
  ⟨h.1, h.2.1 0 (by decide)⟩

/-- Python str.strip(): remove leading and trailing whitespace. -/
def pyStrip (s : String) : String :=
  ⟨((s.data.dropWhile Char.isWhitespace).reverse.dropWhile Char.isWhitespace).reverse⟩

/-- Python str.lower() restricted to ASCII case mapping. -/
def pyLower (s : String) : String :=
  ⟨s.data.map Char.toLower⟩

/-- Python str.rstrip(' +'): remove trailing characters drawn from
the set containing the space and the plus sign. -/
def rstripSpacePlus (s : String) : String :=
  ⟨(s.data.reverse.dropWhile (fun c => c = ' ' || c = '+')).reverse⟩

/-- Python str.rstrip(given a percent sign): remove trailing percent signs. -/
def rstripPercent (s : String) : String :=
  ⟨(s.data.reverse.dropWhile (fun c => c = '%')).reverse⟩

/-- Python str.replace of the comma with the empty string. -/
def removeCommas (s : String) : String :=
  ⟨s.data.filter (fun c => c ≠ ',')⟩

/-- Character-list prefix test used to implement the substring test. -/
def strLead : List Char → List Char → Bool
  | [], _ => true
  | _ :: _, [] => false
  | a :: as, b :: bs => a = b && strLead as bs

/-- Python substring membership needle in hay. -/
def strContains (hay needle : String) : Bool :=
  (List.range (hay.data.length + 1)).any (fun i => strLead needle.data (hay.data.drop i))

/-- Python str.split() with no argument: split on runs of whitespace,
discarding empty fragments. -/
def wsGroups (cs : List Char) : List (List Char) :=
  (cs.foldr
    (fun c acc =>
      if c.isWhitespace then [] :: acc
      else
        match acc with
        | [] => [[c]]
        | g :: gs => (c :: g) :: gs)
    []).filter (fun g => g ≠ [])

/-- Python str.split() on a string, producing strings. -/
def pySplit (s : String) : List String :=
  (wsGroups s.data).map (fun g => ⟨g⟩)

/-- Lines 148-153 of app.py, per table row:
cols_text = [col.text.strip() for col in cols if col.text.strip()].
Each cell is stripped and only the nonempty results are kept; the row is
then dropped from data when cols_text is empty. -/
def parseRow (cells : List String) : List String :=
  (cells.map pyStrip).filter (fun s => s ≠ "")

/-- C4 counterexample: the claim says an empty cell inside a row with some
non-empty cell is kept in place; the list comprehension on line 149 instead
filters the empty cell out, shifting the later cells left, so the row
["Sales", "", "5"] parses to ["Sales", "5"]. -/
theorem parseRow_counterexample :
    parseRow ["Sales", "", "5"] ≠ ["Sales", "", "5"]
    ∧ parseRow ["Sales", "", "5"] = ["Sales", "5"] := by
  constructor <;> decide

/-- C4 amended: a row is dropped exactly when every cell is empty after
trimming, and additionally every empty cell of a kept row is removed from
the parsed row (so the empty-string coercion branch of the metric extractor
never sees such a cell, and column alignment is not preserved for rows with
interior empty cells). -/
theorem parseRow_amended (cells : List String) :
    (parseRow cells = [] ↔ ∀ s ∈ cells, pyStrip s = "")
    ∧ (∀ t ∈ parseRow cells, t ≠ "") := by
  constructor
  · rw [parseRow, List.filter_eq_nil_iff]
    constructor
    · intro h s hs
      have := h (pyStrip s) (List.mem_map_of_mem pyStrip hs)
      simpa using this
    · intro h a ha
      rw [List.mem_map] at ha
      obtain ⟨s, hs, rfl⟩ := ha
      simpa using h s hs
  · intro t ht
    rw [parseRow, List.mem_filter] at ht
    simpa using ht.2

theorem parseRow_amended_witness :
    ("" ∉ parseRow ["a", " ", "b"]) ∧ parseRow ["", " "] = [] :=
  ⟨fun hmem => (parseRow_amended ["a", " ", "b"]).2 "" hmem rfl,
   (parseRow_amended ["", " "]).1.mpr (by decide)⟩

/-- Digit-list to natural-number value. -/
def digitsToNat (cs : List Char) : Nat :=
  cs.foldl (fun a c => 10 * a + (c.toNat - 48)) 0

/-- Nonempty list of decimal digits. -/
def isDigits (cs : List Char) : Bool :=
  cs ≠ [] && cs.all Char.isDigit

/-- Split a character list at the first character satisfying p: the part
before it and, when a match exists, the part after it. -/
def breakOn (p : Char → Bool) : List Char → List Char × Option (List Char)
  | [] => ([], none)
  | c :: cs =>
    if p c then ([], some cs)
    else
      let r := breakOn p cs
      (c :: r.1, r.2)

/-- Python float(text) on an unsigned finite decimal literal: digits with an
optional fractional part and an optional decimal exponent, evaluated as an
exact rational (the source only compares and truncates these values, so the
exact-rational idealization of IEEE parsing is immaterial to the claims). -/
def parseUnsigned (cs : List Char) : Option ℚ :=
  let m := breakOn (fun c => c = 'e' || c = 'E') cs
  let mval : Option ℚ :=
    let ip := breakOn (fun c => c = '.') m.1
    match ip.2 with
    | none => if isDigits ip.1 then some (digitsToNat ip.1 : ℚ) else none
    | some fp =>
      if ip.1.all Char.isDigit && fp.all Char.isDigit
          && (decide (ip.1 ≠ []) || decide (fp ≠ [])) then
        some ((digitsToNat ip.1 : ℚ) + (digitsToNat fp : ℚ) / ((10 : ℚ) ^ fp.length))
      else none
  match mval, m.2 with
  | none, _ => none
  | some v, none => some v
  | some v, some ec =>
    match ec with
    | '+' :: ds => if isDigits ds then some (v * (10 : ℚ) ^ (digitsToNat ds : ℤ)) else none
    | '-' :: ds => if isDigits ds then some (v * (10 : ℚ) ^ (-(digitsToNat ds : ℤ))) else none
    | ds => if isDigits ds then some (v * (10 : ℚ) ^ (digitsToNat ds : ℤ)) else none

/-- Python float(text): strip whitespace, handle an optional sign, then the
unsigned literal. Raising ValueError is modelled as none. -/
def parseFloat (s : String) : Option ℚ :=
  match (pyStrip s).data with
  | '+' :: t => parseUnsigned t
  | '-' :: t => (parseUnsigned t).map Neg.neg
  | t => parseUnsigned t

/-- Lines 172-186 of app.py, per data cell v:
empty string gives None; a string containing a percent sign is parsed as a
float after stripping trailing percent signs; otherwise the string is parsed
as a float after removing commas; parse failure gives None. -/
def coerceCell (v : String) : Option ℚ :=
  if v = "" then none
  else if strContains v "%" then parseFloat (rstripPercent v)
  else parseFloat (removeCommas v)

/-- Python int(x) on a float value: truncation toward zero, modelled on the
exact rational. -/
def pyInt (q : ℚ) : ℤ :=
  if q < 0 then -((-q).floor) else q.floor

/-- Lines 167-188 of app.py: for each data row after the header, the metric
name is cell 0 with trailing spaces and plus signs stripped; rows named
"Raw PDF" or with an empty stripped name are skipped; the remaining cells
are coerced to optional numeric values. The data rows produced by the row
parser are nonempty, so taking cell 0 via headD is exact on pipeline inputs. -/
def extractRow (row : List String) : Option (String × List (Option ℚ)) :=
  if rstripSpacePlus (row.headD "") = "Raw PDF" ∨ rstripSpacePlus (row.headD "") = ""
  then none
  else some (rstripSpacePlus (row.headD ""), (row.drop 1).map coerceCell)

/-- Loop over data[1:] of lines 167-188, collecting the kept metric rows. -/
def extractMetrics (rows : List (List String)) : List (String × List (Option ℚ)) :=
  rows.filterMap extractRow

/-- Metric names in extraction order. -/
def metricNames (rows : List (List String)) : List String :=
  (extractMetrics rows).map Prod.fst

/-- Metric value series in extraction order. -/
def metricValues (rows : List (List String)) : List (List (Option ℚ)) :=
  (extractMetrics rows).map Prod.snd

/-- Python next((i for i, m in enumerate(ms) if p m), -1): index of the first
element satisfying p, with the miss encoded as none rather than -1. -/
def firstIdx (p : String → Bool) : List String → Option Nat
  | [] => none
  | m :: ms => if p m then some 0 else (firstIdx p ms).map Nat.succ

/-- Line 193 of app.py: first metric whose name contains "Sales". -/
def salesIdx (rows : List (List String)) : Option Nat :=
  firstIdx (fun m => strContains m "Sales") (metricNames rows)

/-- Line 196 of app.py: first metric named exactly "Operating Profit". -/
def opProfitIdx (rows : List (List String)) : Option Nat :=
  firstIdx (fun m => m = "Operating Profit") (metricNames rows)

/-- Line 197 of app.py: first metric named exactly "OPM %". -/
def opmIdx (rows : List (List String)) : Option Nat :=
  firstIdx (fun m => m = "OPM %") (metricNames rows)

/-- Line 198 of app.py: first metric named exactly "EPS in Rs". -/
def epsIdx (rows : List (List String)) : Option Nat :=
  firstIdx (fun m => m = "EPS in Rs") (metricNames rows)

/-- Lines 200-203 of app.py: values[idx] when the metric was found, else a
series of None of length len(quarters). -/
def seriesFor (idx : Option Nat) (values : List (List (Option ℚ))) (nq : Nat) :
    List (Option ℚ) :=
  match idx with
  | some i => values.getD i []
  | none => List.replicate nq none

/-- The Sales series before integer coercion. -/
def salesSeries (rows : List (List String)) (nq : Nat) : List (Option ℚ) :=
  seriesFor (salesIdx rows) (metricValues rows) nq

/-- The Operating Profit series before integer coercion. -/
def opProfitSeries (rows : List (List String)) (nq : Nat) : List (Option ℚ) :=
  seriesFor (opProfitIdx rows) (metricValues rows) nq

/-- The OPM percentage series before integer coercion. -/
def opmSeries (rows : List (List String)) (nq : Nat) : List (Option ℚ) :=
  seriesFor (opmIdx rows) (metricValues rows) nq

/-- The EPS series (kept fractional by the code). -/
def epsSeries (rows : List (List String)) (nq : Nat) : List (Option ℚ) :=
  seriesFor (epsIdx rows) (metricValues rows) nq

theorem firstIdx_none (p : String → Bool) (l : List String) :
    firstIdx p l = none ↔ ∀ a ∈ l, ¬ p a := by
  induction l with
  | nil => simp [firstIdx]
  | cons m ms ih =>
    by_cases hp : p m
    · simp [firstIdx, hp]
    · simp [firstIdx, hp, Option.map_eq_none', ih]

theorem firstIdx_some (p : String → Bool) (l : List String) :
    ∀ i, firstIdx p l = some i →
      ∃ h : i < l.length, p (l.get ⟨i, h⟩)
        ∧ ∀ j, ∀ hj : j < l.length, j < i → ¬ p (l.get ⟨j, hj⟩) := by
  induction l with
  | nil => intro i h; simp [firstIdx] at h
  | cons m ms ih =>
    intro i h
    by_cases hp : p m
    · rw [firstIdx, if_pos hp] at h
      obtain rfl : (0 : Nat) = i := Option.some.inj h
      exact ⟨Nat.succ_pos _, hp, fun j hj hj0 => absurd hj0 (Nat.not_lt_zero j)⟩
    · rw [firstIdx, if_neg hp] at h
      rw [Option.map_eq_some'] at h
      obtain ⟨i', hi', rfl⟩ := h
      obtain ⟨hlt, hpi, hmin⟩ := ih i' hi'
      refine ⟨Nat.succ_lt_succ hlt, hpi, ?_⟩
      intro j hj hj'
      match j with
      | 0 => exact hp
      | Nat.succ j' =>
        exact hmin j' (Nat.lt_of_succ_lt_succ hj) (Nat.lt_of_succ_lt_succ hj')

/-- C5: metric rows are named by cell 0 with trailing spaces and plus signs
stripped; rows whose stripped name is "Raw PDF" or empty are discarded and
all other rows are kept with that name; the Sales row is the first metric
whose name contains the substring "Sales" while Operating Profit, OPM % and
EPS in Rs require exact name equality (first occurrence); and any metric
not found yields a series of absent values of length equal to the
quarter-label count nq. -/
theorem metric_extraction_correct (rows : List (List String)) (nq : Nat) :
    (∀ pr ∈ extractMetrics rows, pr.1 ≠ "Raw PDF" ∧ pr.1 ≠ "")
    ∧ (∀ row ∈ rows, rstripSpacePlus (row.headD "") ≠ "Raw PDF" →
        rstripSpacePlus (row.headD "") ≠ "" →
        (rstripSpacePlus (row.headD ""), (row.drop 1).map coerceCell) ∈
          extractMetrics rows)
    ∧ (salesIdx rows = none → salesSeries rows nq = List.replicate nq none)
    ∧ (∀ i, salesIdx rows = some i → ∃ h : i < (metricNames rows).length,
        strContains ((metricNames rows).get ⟨i, h⟩) "Sales"
        ∧ ∀ j, ∀ hj : j < (metricNames rows).length, j < i →
            ¬ strContains ((metricNames rows).get ⟨j, hj⟩) "Sales")
    ∧ (opProfitIdx rows = none →
        opProfitSeries rows nq = List.replicate nq none)
    ∧ (∀ i, opProfitIdx rows = some i → ∃ h : i < (metricNames rows).length,
        (metricNames rows).get ⟨i, h⟩ = "Operating Profit"
        ∧ ∀ j, ∀ hj : j < (metricNames rows).length, j < i →
            (metricNames rows).get ⟨j, hj⟩ ≠ "Operating Profit")
    ∧ (opmIdx rows = none → opmSeries rows nq = List.replicate nq none)
    ∧ (∀ i, opmIdx rows = some i → ∃ h : i < (metricNames rows).length,
        (metricNames rows).get ⟨i, h⟩ = "OPM %"
        ∧ ∀ j, ∀ hj : j < (metricNames rows).length, j < i →
            (metricNames rows).get ⟨j, hj⟩ ≠ "OPM %")
    ∧ (epsIdx rows = none → epsSeries rows nq = List.replicate nq none)
    ∧ (∀ i, epsIdx rows = some i → ∃ h : i < (metricNames rows).length,
        (metricNames rows).get ⟨i, h⟩ = "EPS in Rs"
        ∧ ∀ j, ∀ hj : j < (metricNames rows).length, j < i →
            (metricNames rows).get ⟨j, hj⟩ ≠ "EPS in Rs") := by
  refine ⟨?_, ?_, ?_, ?_, ?_, ?_, ?_, ?_, ?_, ?_⟩
  · intro pr hpr
    rw [extractMetrics, List.mem_filterMap] at hpr
    obtain ⟨row, _, hf⟩ := hpr
    rw [extractRow] at hf
    by_cases hc : rstripSpacePlus (row.headD "") = "Raw PDF"
        ∨ rstripSpacePlus (row.headD "") = ""
    · rw [if_pos hc] at hf
      exact absurd hf (by simp)
    · rw [if_neg hc] at hf
      obtain rfl := Option.some.inj hf
      push_neg at hc
      exact hc
  · intro row hrow h1 h2
    rw [extractMetrics, List.mem_filterMap]
    refine ⟨row, hrow, ?_⟩
    rw [extractRow, if_neg (by push_neg; exact ⟨h1, h2⟩)]
  · intro h
    rw [salesSeries, h, seriesFor]
  · intro i h
    obtain ⟨hlt, hpi, hmin⟩ := firstIdx_some _ _ i h
    refine ⟨hlt, by simpa using hpi, ?_⟩
    intro j hj hj'
    simpa using hmin j hj hj'
  · intro h
    rw [opProfitSeries, h, seriesFor]
  · intro i h
    obtain ⟨hlt, hpi, hmin⟩ := firstIdx_some _ _ i h
    refine ⟨hlt, by simpa using hpi, ?_⟩
    intro j hj hj'
    simpa using hmin j hj hj'
  · intro h
    rw [opmSeries, h, seriesFor]
  · intro i h
    obtain ⟨hlt, hpi, hmin⟩ := firstIdx_some _ _ i h
    refine ⟨hlt, by simpa using hpi, ?_⟩
    intro j hj hj'
    simpa using hmin j hj hj'
  · intro h
    rw [epsSeries, h, seriesFor]
  · intro i h
    obtain ⟨hlt, hpi, hmin⟩ := firstIdx_some _ _ i h
    refine ⟨hlt, by simpa using hpi, ?_⟩
    intro j hj hj'
    simpa using hmin j hj hj'

theorem metric_extraction_correct_witness :
    salesSeries [["Expenses", "5"]] 3 = List.replicate 3 none :=
  (metric_extraction_correct [["Expenses", "5"]] 3).2.2.1 (by decide)

/-- Lines 336-337 of app.py: words longer than 3 characters from a
whitespace split. -/
def significantWords (s : String) : List String :=
  (pySplit s).filter (fun w => 3 < w.data.length)

/-- Line 341, inner any: word in nse_word or nse_word in word. -/
def wordMatches (w : String) (nw : List String) : Bool :=
  nw.any (fun x => strContains x w || strContains w x)

/-- Line 341: number of significant input words matching some significant
candidate word. -/
def matchCount (cw nw : List String) : Nat :=
  (cw.filter (fun w => wordMatches w nw)).length

/-- Line 342: matches / len(company_words) >= 0.6, evaluated exactly by
cross-multiplication (equivalent to the rational comparison whenever the
word count is positive, which the guarding check ensures in the code). -/
def fuzzyOk (cw nw : List String) : Bool :=
  3 * cw.length ≤ 5 * matchCount cw nw

/-- Lines 334-344 of app.py: the fuzzy-match loop over the mapping in
iteration order; the company-word check guards the threshold test. -/
def fuzzyMatch (companyLower : String) : List (String × String) → Option String
  | [] => none
  | e :: rest =>
    if significantWords companyLower ≠ [] ∧
        fuzzyOk (significantWords companyLower) (significantWords e.1)
    then some e.2
    else fuzzyMatch companyLower rest

/-- Lines 320-328 of app.py: the curated override table known_mappings,
with Python None modelled as none. -/
def knownMappings : List (String × Option String) :=
  [("hdil", some "HDIL"),
   ("india cements", some "INDIACEM"),
   ("ultratech cement", some "ULTRACEMCO"),
   ("coforge", some "COFORGE"),
   ("regaal", none),
   ("vikram solar", none),
   ("sugar", none)]

/-- Lines 306-346 of app.py: find_nse_symbol. The global dict nse_mapping is
passed explicitly as an association list in iteration order; dict
membership and indexing become List.lookup, and the early return on an
empty dict is the isEmpty test. -/
def find_nse_symbol (companyName : String)
    (nseMapping : List (String × String)) : Option String :=
  if nseMapping.isEmpty then none
  else
    match List.lookup (pyLower companyName) nseMapping with
    | some sym => some sym
    | none =>
      match List.lookup (pyLower companyName) knownMappings with
      | some v => v
      | none => fuzzyMatch (pyLower companyName) nseMapping

theorem fuzzyMatch_no_words (cl : String) (l : List (String × String))
    (h : significantWords cl = []) : fuzzyMatch cl l = none := by
  induction l with
  | nil => rfl
  | cons e rest ih => rw [fuzzyMatch, if_neg (by simp [h]), ih]

theorem fuzzyMatch_some (cl : String) (l : List (String × String)) :
    ∀ s, fuzzyMatch cl l = some s →
      ∃ i, ∃ hi : i < l.length, s = (l.get ⟨i, hi⟩).2
        ∧ significantWords cl ≠ []
        ∧ fuzzyOk (significantWords cl) (significantWords (l.get ⟨i, hi⟩).1)
        ∧ ∀ j, ∀ hj : j < l.length, j < i →
            ¬ fuzzyOk (significantWords cl) (significantWords (l.get ⟨j, hj⟩).1) := by
  induction l with
  | nil => intro s h; simp [fuzzyMatch] at h
  | cons e rest ih =>
    intro s h
    by_cases hc : significantWords cl ≠ [] ∧
        fuzzyOk (significantWords cl) (significantWords e.1)
    · rw [fuzzyMatch, if_pos hc] at h
      obtain rfl := Option.some.inj h
      exact ⟨0, Nat.succ_pos _, rfl, hc.1, hc.2,
        fun j hj hj0 => absurd hj0 (Nat.not_lt_zero j)⟩
    · rw [fuzzyMatch, if_neg hc] at h
      obtain ⟨i, hi, hs, hw, hok, hmin⟩ := ih s h
      refine ⟨i + 1, Nat.succ_lt_succ hi, hs, hw, hok, ?_⟩
      intro j hj hj'
      match j with
      | 0 =>
        intro hok0
        exact hc ⟨hw, hok0⟩
      | Nat.succ j' =>
        exact hmin j' (Nat.lt_of_succ_lt_succ hj) (Nat.lt_of_succ_lt_succ hj')

theorem fuzzyOk_iff_ratio (cw nw : List String) (h : cw ≠ []) :
    fuzzyOk cw nw = true ↔
      (3 : ℚ)/5 ≤ (matchCount cw nw : ℚ) / (cw.length : ℚ) := by
  have hl : (0 : ℚ) < (cw.length : ℚ) := by
    exact_mod_cast List.length_pos.mpr h
  rw [div_le_div_iff₀ (by norm_num) hl]
  rw [show fuzzyOk cw nw = decide (3 * cw.length ≤ 5 * matchCount cw nw) from rfl,
    decide_eq_true_iff]
  constructor
  · intro hle
    have : ((3 * cw.length : Nat) : ℚ) ≤ ((5 * matchCount cw nw : Nat) : ℚ) := by
      exact_mod_cast hle
    push_cast at this
    linarith
  · intro hle
    have : ((3 * cw.length : Nat) : ℚ) ≤ ((5 * matchCount cw nw : Nat) : ℚ) := by
      push_cast
      linarith
    exact_mod_cast this

/-- C6 counterexample: the claim quantifies over every index and says
resolution proceeds exact match, then curated table, then fuzzy; but with
an empty index the code returns absent before the curated stage, so the
curated name hdil (mapped to HDIL by the table) resolves to none. -/
theorem resolver_stages_counterexample :
    find_nse_symbol "hdil" [] = none
    ∧ List.lookup (pyLower "hdil") knownMappings = some (some "HDIL") := by
  exact ⟨rfl, by decide⟩

/-- C6 amended: for every nonempty index, resolution proceeds in three
stages: exact lookup of the lower-cased name, then the curated override
table, then the fuzzy loop, in which only words longer than 3 characters
are significant, a candidate matches when at least 0.6 of the significant
input words are a substring of or contain a significant candidate word
(the cross-multiplied test coincides with the 0.6 ratio), the first
candidate in iteration order wins, fuzzy matching never matches when the
input has no significant words, and the result is absent when all stages
fail. With an empty index the resolver instead returns absent immediately. -/
theorem resolver_stages_amended (name : String)
    (mapping : List (String × String)) (hne : mapping ≠ []) :
    (∀ s, List.lookup (pyLower name) mapping = some s →
        find_nse_symbol name mapping = some s)
    ∧ (List.lookup (pyLower name) mapping = none →
        ∀ v, List.lookup (pyLower name) knownMappings = some v →
          find_nse_symbol name mapping = v)
    ∧ (List.lookup (pyLower name) mapping = none →
        List.lookup (pyLower name) knownMappings = none →
          find_nse_symbol name mapping = fuzzyMatch (pyLower name) mapping)
    ∧ (significantWords (pyLower name) = [] →
        fuzzyMatch (pyLower name) mapping = none)
    ∧ (∀ s, fuzzyMatch (pyLower name) mapping = some s →
        ∃ i, ∃ hi : i < mapping.length,
          s = (mapping.get ⟨i, hi⟩).2
          ∧ significantWords (pyLower name) ≠ []
          ∧ fuzzyOk (significantWords (pyLower name))
              (significantWords (mapping.get ⟨i, hi⟩).1)
          ∧ ∀ j, ∀ hj : j < mapping.length, j < i →
              ¬ fuzzyOk (significantWords (pyLower name))
                  (significantWords (mapping.get ⟨j, hj⟩).1))
    ∧ (∀ cw nw : List String, cw ≠ [] →
        (fuzzyOk cw nw = true ↔
          (3 : ℚ)/5 ≤ (matchCount cw nw : ℚ) / (cw.length : ℚ))) := by
  have hni : ¬ (mapping.isEmpty = true) := by
    simpa [List.isEmpty_iff] using hne
  refine ⟨?_, ?_, ?_, fuzzyMatch_no_words _ _, fuzzyMatch_some _ _, fuzzyOk_iff_ratio⟩
  · intro s hs
    rw [find_nse_symbol, if_neg hni, hs]
  · intro h v hv
    rw [find_nse_symbol, if_neg hni, h, hv]
  · intro h hk
    rw [find_nse_symbol, if_neg hni, h, hk]

theorem resolver_stages_amended_witness :
    find_nse_symbol "TCS Ltd" [("tcs ltd", "TCS")] = some "TCS" :=
  (resolver_stages_amended "TCS Ltd" [("tcs ltd", "TCS")] (by decide)).1
    "TCS" (by decide)

/-- C9 counterexample: the claim says an entry mapping a name to the
no-symbol marker yields a result distinguishable from a resolution failure,
but a curated no-symbol name (regaal) and a name failing all stages (zzzz)
both return the same absent value against the same nonempty index. -/
theorem marker_counterexample :
    find_nse_symbol "regaal" [("abc", "ABC")] = none
    ∧ find_nse_symbol "zzzz" [("abc", "ABC")] = none
    ∧ List.lookup (pyLower "regaal") knownMappings = some none := by
  refine ⟨by decide, by decide, by decide⟩

/-- C9 amended: the curated no-symbol marker short-circuits resolution (it
prevents the fuzzy stage from running) but the function returns the same
absent value as a failed resolution, so the two outcomes are not
distinguishable from the return value. -/
theorem marker_shortcircuit_amended (name : String)
    (mapping : List (String × String)) (hne : mapping ≠ [])
    (hexact : List.lookup (pyLower name) mapping = none)
    (hknown : List.lookup (pyLower name) knownMappings = some none) :
    find_nse_symbol name mapping = none := by
  have hni : ¬ (mapping.isEmpty = true) := by
    simpa [List.isEmpty_iff] using hne
  rw [find_nse_symbol, if_neg hni, hexact, hknown]

theorem marker_shortcircuit_amended_witness :
    find_nse_symbol "sugar" [("sugar mills ltd", "SUGARM")] = none
    ∧ fuzzyMatch (pyLower "sugar") [("sugar mills ltd", "SUGARM")] =
        some "SUGARM" :=
  ⟨marker_shortcircuit_amended "sugar" [("sugar mills ltd", "SUGARM")]
      (by decide) (by decide) (by decide),
   by decide⟩

/-- C10: with an empty name-to-symbol index the resolver returns absent
immediately for every company name, without consulting the curated override
table or fuzzy matching; in particular hdil, which the curated table maps
to HDIL, resolves to none while the index is empty. -/
theorem empty_mapping_returns_none :
    (∀ name : String, find_nse_symbol name [] = none)
    ∧ List.lookup (pyLower "hdil") knownMappings = some (some "HDIL")
    ∧ find_nse_symbol "hdil" [] = none :=
  ⟨fun _ => rfl, by decide, rfl⟩

/-- One parsed row of the upcoming-results calendar (lines 400-409 of
app.py): company name, result date and BSE security code. -/
structure CalRow where
  company : String
  resultDate : String
  bseCode : String
  deriving DecidableEq, Repr

/-- Lines 394-409 of app.py, per calendar line:
parts = line.split(); lines with fewer than 3 parts are skipped;
security_code = parts[0]; result_date = ' '.join(parts[-3:]);
company_parts = parts[1:-3] if len(parts) > 3 else [parts[1]];
company_name = ' '.join(company_parts). -/
def parseCalendarLine (line : String) : Option CalRow :=
  let parts := pySplit line
  if 3 ≤ parts.length then
    some
      { company :=
          String.intercalate " "
            (if 3 < parts.length then (parts.drop 1).take (parts.length - 4)
             else [parts.getD 1 ""]),
        resultDate := String.intercalate " " (parts.drop (parts.length - 3)),
        bseCode := parts.headD "" }
  else none

/-- C7 counterexample: the claim says the company name is token 1 alone when
there are only 4 tokens, but for a 4-token line the code takes
parts[1:-3], which is empty, so the company name is the empty string
rather than token 1 ("08"). -/
theorem calendar_line_counterexample :
    parseCalendarLine "500001 08 Sep 2025" =
      some { company := "", resultDate := "08 Sep 2025", bseCode := "500001" }
    ∧ ("" : String) ≠ "08" := by
  exact ⟨by decide, by decide⟩

/-- C7 amended: lines with fewer than 3 whitespace tokens are skipped; for a
kept line token 0 is the exchange code and the last 3 tokens joined with
spaces form the result date; the company name is the tokens strictly
between token 0 and the final 3 joined with spaces when there are at least
4 tokens (hence empty for exactly 4 tokens), and token 1 alone when there
are exactly 3 tokens; the example line parses to company HDIL Limited,
date 08 Sep 2025, code 532873. -/
theorem calendar_line_amended (line : String) :
    ((pySplit line).length < 3 → parseCalendarLine line = none)
    ∧ (4 ≤ (pySplit line).length → parseCalendarLine line =
        some
          { company :=
              String.intercalate " "
                (((pySplit line).drop 1).take ((pySplit line).length - 4)),
            resultDate :=
              String.intercalate " "
                ((pySplit line).drop ((pySplit line).length - 3)),
            bseCode := (pySplit line).headD "" })
    ∧ ((pySplit line).length = 3 → parseCalendarLine line =
        some
          { company := (pySplit line).getD 1 "",
            resultDate :=
              String.intercalate " "
                ((pySplit line).drop ((pySplit line).length - 3)),
            bseCode := (pySplit line).headD "" })
    ∧ parseCalendarLine "532873 HDIL Limited 08 Sep 2025" =
        some { company := "HDIL Limited", resultDate := "08 Sep 2025",
               bseCode := "532873" } := by
  refine ⟨?_, ?_, ?_, by decide⟩
  · intro h
    rw [parseCalendarLine]
    simp only [if_neg (by omega : ¬ 3 ≤ (pySplit line).length)]
  · intro h
    rw [parseCalendarLine]
    simp only [if_pos (by omega : 3 ≤ (pySplit line).length),
      if_pos (by omega : 3 < (pySplit line).length)]
  · intro h
    rw [parseCalendarLine]
    simp only [if_pos (by omega : 3 ≤ (pySplit line).length),
      if_neg (by omega : ¬ 3 < (pySplit line).length)]
    rw [String.intercalate]
    rw [String.intercalate.go]

theorem calendar_line_amended_witness :
    parseCalendarLine "500002 08 Sep" =
      some { company := (pySplit "500002 08 Sep").getD 1 "",
             resultDate := String.intercalate " "
               ((pySplit "500002 08 Sep").drop
                 ((pySplit "500002 08 Sep").length - 3)),
             bseCode := (pySplit "500002 08 Sep").headD "" } :=
  (calendar_line_amended "500002 08 Sep").2.2.1 (by decide)

/-- The metrics dictionary of the success result (lines 232-239 of
app.py). -/
structure Metrics where
  sales : List (Option ℤ)
  opProfit : List (Option ℤ)
  opm : List (Option ℤ)
  eps : List (Option ℚ)
  yoy : List PctResult
  qoq : List PctResult
  deriving DecidableEq, Repr

/-- The per-symbol report dictionary (lines 228-240 and 248 of app.py): the
error result has empty quarters, an empty metrics dict (modelled none) and
the error key set. The symbol field, a constant upper-casing of the input,
is omitted. -/
structure Report where
  marketCap : Option String
  quarters : List String
  metrics : Option Metrics
  error : Option String
  deriving DecidableEq, Repr

/-- Line 248 of app.py: the error report returned from the exception
handler on the last URL. -/
def errorReport (msg : String) (mcap : Option String) : Report :=
  { marketCap := mcap, quarters := [], metrics := none, error := some msg }

/-- Outcome of processing one candidate URL, abstracting the page fetcher
and the market-cap scan of lines 85-130: either an exception raised during
the fetch (before market_cap is assigned in that iteration), or a fetched
page carrying the extracted market cap and, when the quarters section and
its table were located (lines 133-143), the raw table rows. -/
inductive Fetched where
  | failed (msg : String)
  | html (mcap : Option String) (tbl : Option (List (List String)))

/-- What the get_earnings call does: raise an exception out of the
function, return Python None by falling off the URL loop, or return a
report dictionary. -/
inductive EarningsOutcome where
  | raised
  | noResult
  | report (r : Report)
  deriving DecidableEq, Repr

/-- Lines 159-243 of app.py: build the success report from the parsed
nonempty rows and the market cap. -/
def buildReport (mcap : Option String) (data : List (List String)) : Report :=
  let quarters := (data.headD []).drop 1
  let nq := quarters.length
  let rows := data.drop 1
  let sales := (salesSeries rows nq).map (Option.map pyInt)
  let opProfit := (opProfitSeries rows nq).map (Option.map pyInt)
  let opm := (opmSeries rows nq).map (Option.map pyInt)
  let eps := epsSeries rows nq
  let qoq := computeQoQ sales nq
  let yoy := computeYoY sales nq
  let n := min nq 8
  { marketCap := mcap,
    quarters := latestFirst quarters n quarters,
    metrics := some
      { sales := latestFirst quarters n sales,
        opProfit := latestFirst quarters n opProfit,
        opm := latestFirst quarters n opm,
        eps := latestFirst quarters n eps,
        yoy := latestFirst quarters n yoy,
        qoq := latestFirst quarters n qoq },
    error := none }

/-- Lines 84-250 of app.py: the loop over candidate URLs. The state
mcapState models the Python local market_cap across iterations: none when
still unbound, some mc once assigned. An exception on the last URL returns
the error report when market_cap is bound and itself raises (NameError)
when not; section, table or row failures continue to the next URL, and
falling off the loop returns Python None (noResult); empty quarter labels
continue unless on the last URL. -/
def geLoop (mcapState : Option (Option String)) : List Fetched → EarningsOutcome
  | [] => EarningsOutcome.noResult
  | f :: rest =>
    match f with
    | Fetched.failed msg =>
      if rest.isEmpty then
        match mcapState with
        | none => EarningsOutcome.raised
        | some mc => EarningsOutcome.report (errorReport msg mc)
      else geLoop mcapState rest
    | Fetched.html mc tbl =>
      match tbl with
      | none => geLoop (some mc) rest
      | some grid =>
        let data := (grid.map parseRow).filter (fun r => r ≠ [])
        if data = [] then geLoop (some mc) rest
        else if ((data.headD []).drop 1) = [] ∧ ¬ rest.isEmpty then
          geLoop (some mc) rest
        else EarningsOutcome.report (buildReport mc data)

/-- get_earnings as a function of the per-URL outcomes, with market_cap
initially unbound. -/
def get_earnings (fetches : List Fetched) : EarningsOutcome :=
  geLoop none fetches

/-- C8 counterexample: the claim says that when every candidate URL fails
to yield a parsable quarterly table the function returns a report with an
error marker and the partial data; but when both pages fetch successfully
and merely lack the quarters table the loop continues past the last URL
and the function returns nothing (Python None), not a report. -/
theorem get_earnings_counterexample :
    get_earnings [Fetched.html (some "123") none, Fetched.html (some "123") none] =
      EarningsOutcome.noResult := rfl

/-- C8 amended: when processing of the final candidate URL raises an error
and a market-cap value was assigned during an earlier candidate's
processing, get_earnings returns a report carrying the error marker
together with that partial market-cap datum; but when the fetch raises on
every candidate before any market-cap assignment the exception handler
itself raises, and when every candidate merely lacks a parsable quarterly
table the function returns no result at all. -/
theorem get_earnings_amended :
    (∀ (mc : Option String) (msg : String),
      get_earnings [Fetched.html mc none, Fetched.failed msg] =
        EarningsOutcome.report
          { marketCap := mc, quarters := [], metrics := none,
            error := some msg })
    ∧ (∀ m1 m2 : String,
        get_earnings [Fetched.failed m1, Fetched.failed m2] =
          EarningsOutcome.raised)
    ∧ (∀ mc mc2 : Option String,
        get_earnings [Fetched.html mc none, Fetched.html mc2 none] =
          EarningsOutcome.noResult) :=
  ⟨fun _ _ => rfl, fun _ _ => rfl, fun _ _ => rfl⟩
